import Mathlib

/-!
Verification development for the RcppML svd class
(file src/inst/include/RcppML/svd.hpp).

The scalar type double is modelled by exact arithmetic: by the rationals
for the loss evaluators and the restart orchestration (which use only
field operations), and by the reals for the ALS fitters (which use square
roots through Eigen norm()).  External collaborators that are not part of
the repository (the Rcpp::SparseMatrix container interface, the helpers
cor and n_nonzeros) are modelled from the spec and marked as such.

Matrix layout, following the constructors of the svd class: u has
A.rows() rows and k columns, v has A.cols() rows and k columns.
-/

/-! ## Rational-valued matrices (dense and sparse containers) -/

/-- Dense matrix over the rationals, modelling Eigen::MatrixXd.  The entry
function is total; code paths that read outside the stated bounds are
undefined behaviour in the C++ source and are flagged in comments where
they matter. -/
structure QMat where
  rows : ℕ
  cols : ℕ
  ent : ℕ → ℕ → ℚ

/-- Sparse matrix in compressed-sparse-column form, modelling the external
Rcpp::SparseMatrix container.  colData holds, for each column, the list of
(row index, value) pairs of stored entries in ascending row order.
Modelled from the spec: the container exposes column iteration over
nonzero entries, row and column counts, and set-style listing of
nonzero or masked row indices per column. -/
structure SMatQ where
  rows : ℕ
  cols : ℕ
  colData : List (List (ℕ × ℚ))
  deriving DecidableEq

/-- Modelled from the spec: InnerIndices(i) lists the stored row indices of
column i (set-style listing of nonzero or masked row indices per column). -/
def SMatQ.InnerIndices (m : SMatQ) (i : ℕ) : List ℕ :=
  (m.colData.getD i []).map Prod.fst

/-- Modelled from the spec: total count of stored entries, as used by the
source through mask_matrix.i.size() and A.x.size(). -/
def SMatQ.nnz (m : SMatQ) : ℕ :=
  (m.colData.map List.length).sum

/-- Value stored at (r, i), or 0 when (r, i) is not a stored entry.  Used
to express the scatter-subtraction loop of the sparse mse evaluator. -/
def SMatQ.valueAt (m : SMatQ) (r i : ℕ) : ℚ :=
  match (m.colData.getD i []).find? (fun p => p.fst = r) with
  | some p => p.snd
  | none => 0

/-- Modelled from the spec: emptyInnerIndices(i) lists the row indices of
column i that are NOT stored entries (implicit zeros), in ascending order. -/
def SMatQ.emptyInnerIndices (m : SMatQ) (i : ℕ) : List ℕ :=
  (List.range m.rows).filter (fun r => ¬ r ∈ m.InnerIndices i)

/-- Modelled from the spec: the helper n_nonzeros(A) for a dense matrix
counts the entries of A that are not zero. -/
def n_nonzeros (A : QMat) : ℕ :=
  ((List.range A.rows).map (fun r =>
    ((List.range A.cols).filter (fun c => A.ent r c ≠ 0)).length)).sum

/-! ## The mse evaluators (svd::mse, dense and sparse backends)

Embedding of svd<Eigen::MatrixXd>::mse and svd<Rcpp::SparseMatrix>::mse.
In the source, u0 = u.transpose(), the loop runs over i < v.cols(), the
vector uv_i = u0 * v.col(i) has u.cols() entries, and the divisor is
v.cols() * u.cols().  Eigen asserts u.rows() == v.rows() for the product
and the loops index uv_i by row indices of A and A by column index i, so
the only executions free of out-of-bounds access are those with
u.cols() = A.rows() = A.cols(); the embedding is exact on those.  The
losses array is not zero-initialised in the source (uninitialised Eigen
ArrayXd); the embedding takes the accumulators to start at 0. -/

/-- Embedding of svd<Eigen::MatrixXd>::mse (svd.hpp lines 209-259),
printf calls omitted. -/
def mse_dense (u v A : QMat) (mask_zeros mask : Bool) (mm : SMatQ) : ℚ :=
  let losses : ℕ → ℚ := fun i =>
    let uv : ℕ → ℚ := fun r => ∑ s ∈ Finset.range u.rows, u.ent s r * v.ent s i
    if mask_zeros then
      ∑ r ∈ Finset.range A.rows,
        (if A.ent r i ≠ 0 then (uv r - A.ent r i) ^ 2 else 0)
    else
      let uv2 : ℕ → ℚ := fun r => if r < A.rows then uv r - A.ent r i else uv r
      let uv3 : ℕ → ℚ := fun r =>
        if mask ∧ r ∈ mm.InnerIndices i then 0 else uv2 r
      ∑ r ∈ Finset.range u.cols, (uv3 r) ^ 2
  let total := ∑ i ∈ Finset.range v.cols, losses i
  if mask then total / (((v.cols * u.cols : ℕ) : ℚ) - (mm.nnz : ℚ))
  else if mask_zeros then total / ((n_nonzeros A : ℕ) : ℚ)
  else total / ((v.cols * u.cols : ℕ) : ℚ)

/-- Embedding of svd<Rcpp::SparseMatrix>::mse (svd.hpp lines 175-206). -/
def mse_sparse (u v : QMat) (A : SMatQ) (mask_zeros mask : Bool) (mm : SMatQ) : ℚ :=
  let losses : ℕ → ℚ := fun i =>
    let uv : ℕ → ℚ := fun r => ∑ s ∈ Finset.range u.rows, u.ent s r * v.ent s i
    if mask_zeros then
      ((A.colData.getD i []).map (fun p => (uv p.fst - p.snd) ^ 2)).sum
    else
      let uv2 : ℕ → ℚ := fun r => uv r - A.valueAt r i
      let uv3 : ℕ → ℚ := fun r =>
        if mask ∧ r ∈ mm.InnerIndices i then 0 else uv2 r
      ∑ r ∈ Finset.range u.cols, (uv3 r) ^ 2
  let total := ∑ i ∈ Finset.range v.cols, losses i
  if mask then total / (((v.cols * u.cols : ℕ) : ℚ) - (mm.nnz : ℚ))
  else if mask_zeros then total / ((A.nnz : ℕ) : ℚ)
  else total / ((v.cols * u.cols : ℕ) : ℚ)

/-- Statement of claim C1, written from the words of the spec: every entry
(r, c) of A contributes (reconstruction - actual) squared, with
reconstruction(r, c) equal to the (r, c) entry of U times V transpose, and
the divisor is rows(V) times cols(U). -/
def mse_claimed (u v A : QMat) : ℚ :=
  (∑ r ∈ Finset.range A.rows, ∑ c ∈ Finset.range A.cols,
    ((∑ s ∈ Finset.range u.cols, u.ent r s * v.ent c s) - A.ent r c) ^ 2) /
  ((v.rows * u.cols : ℕ) : ℚ)

/-! ## The mse_masked evaluators (svd::mse_masked, dense and sparse) -/

/-- Embedding of svd<Eigen::MatrixXd>::mse_masked (svd.hpp lines 291-308).
Returns an error when no mask matrix is active, mirroring Rcpp::stop. -/
def mse_masked_dense (u v A : QMat) (mask : Bool) (mm : SMatQ) : Except String ℚ :=
  if mask = false then
    .error "mse_masked can only be run when a masking matrix has been specified"
  else
    .ok ((∑ i ∈ Finset.range v.cols,
      ((mm.InnerIndices i).map (fun row =>
        ((∑ s ∈ Finset.range u.rows, u.ent s row * v.ent s i) - A.ent row i) ^ 2)).sum) /
      ((mm.nnz : ℕ) : ℚ))

/-- Embedding of svd<Rcpp::SparseMatrix>::mse_masked (svd.hpp lines 262-288). -/
def mse_masked_sparse (u v : QMat) (A : SMatQ) (mask : Bool) (mm : SMatQ) : Except String ℚ :=
  if mask = false then
    .error "mse_masked can only be run when a masking matrix has been specified"
  else
    .ok ((∑ i ∈ Finset.range v.cols,
      (let masked_rows := mm.InnerIndices i
       if masked_rows.length > 0 then
         (((A.colData.getD i []).filter (fun p => p.fst ∈ masked_rows)).map
           (fun p =>
             ((∑ s ∈ Finset.range u.rows, u.ent s p.fst * v.ent s i) - p.snd) ^ 2)).sum
         +
         (((A.emptyInnerIndices i).filter (fun r => r ∈ masked_rows)).map
           (fun r =>
             (∑ s ∈ Finset.range u.rows, u.ent s r * v.ent s i) ^ 2)).sum
       else 0)) /
      ((mm.nnz : ℕ) : ℚ))

/-- Statement of the value part of claim C8, written from its words: sum of
squared reconstruction errors over exactly the masked entries, with
reconstruction U times V transpose, divided by the masked-entry count. -/
def mse_masked_claimed (u v A : QMat) (mm : SMatQ) : ℚ :=
  (∑ i ∈ Finset.range v.cols,
    ((mm.InnerIndices i).map (fun row =>
      ((∑ s ∈ Finset.range u.cols, u.ent row s * v.ent i s) - A.ent row i) ^ 2)).sum) /
  ((mm.nnz : ℕ) : ℚ)

/-! ## Concrete inputs for the mse claims -/

/-- Concrete 2 x 2 factor U used by the mse counterexamples. -/
def uEx : QMat :=
  ⟨2, 2, fun r c =>
    if r = 0 ∧ c = 0 then 1 else if r = 0 ∧ c = 1 then 2
    else if r = 1 ∧ c = 0 then 3 else if r = 1 ∧ c = 1 then 4 else 0⟩

/-- Concrete 2 x 2 factor V used by the mse counterexamples. -/
def vEx : QMat :=
  ⟨2, 2, fun r c =>
    if r = 0 ∧ c = 0 then 5 else if r = 0 ∧ c = 1 then 6
    else if r = 1 ∧ c = 0 then 7 else if r = 1 ∧ c = 1 then 8 else 0⟩

/-- Concrete 2 x 2 dense input matrix A = 0. -/
def AEx : QMat := ⟨2, 2, fun _ _ => 0⟩

/-- Sparse encoding of the same 2 x 2 zero matrix (no stored entries). -/
def AsEx : SMatQ := ⟨2, 2, [[], []]⟩

/-- Empty 2 x 2 mask matrix (used where no masking is active). -/
def mmEmpty : SMatQ := ⟨2, 2, [[], []]⟩

/-- Mask matrix with the single masked entry (0, 1). -/
def mmEx : SMatQ := ⟨2, 2, [[], [(0, 1)]]⟩

/-! ## Masking setters (svd::maskZeros, svd::maskMatrix) -/

/-- Masking-related state of an svd object: the two mode flags and the
stored mask matrix (svd.hpp lines 19 and 26). -/
structure MaskState where
  mask : Bool
  mask_zeros : Bool
  symmetric : Bool
  mask_matrix : SMatQ
  deriving DecidableEq

/-- Embedding of svd::maskZeros (svd.hpp lines 72-75).  Rcpp::stop is
modelled by returning an error and no new state. -/
def maskZeros (st : MaskState) : Except String MaskState :=
  if st.mask then .error "a masking function has already been specified"
  else .ok { st with mask_zeros := true }

/-- Embedding of svd::maskMatrix (svd.hpp lines 77-84).  The external
predicate isAppxSymmetric of the mask container is taken as a parameter;
Arows and Acols are the dimensions of A. -/
def maskMatrix (appxSym : SMatQ → Bool) (Arows Acols : ℕ) (m : SMatQ)
    (st : MaskState) : Except String MaskState :=
  if st.mask then .error "a masking function has already been specified"
  else if m.rows ≠ Arows ∨ m.cols ≠ Acols then
    .error "dimensions of masking matrix and A are not equivalent"
  else if st.mask_zeros then
    .error "you already specified to mask zeros, so cannot also supply a masking matrix"
  else
    .ok { st with mask := true, mask_matrix := m,
                  symmetric := if st.symmetric then appxSym m else st.symmetric }

/-! ## Restart orchestration (svd::fit_restarts)

The loop body of fit_restarts (svd.hpp lines 131-160) assigns the
candidate to u, resets tol_ to 1 and iter_ to 0, validates the candidate
shape, runs fit() and mse(), and keeps the strictly best model so far.
Within one call of fit(), given the resets, the resulting u, v, tol_ and
iter_ depend only on the candidate u (v is fully overwritten before being
read), so fit() and mse() enter the embedding as function parameters
runFit and mseFn of the candidate and of the fitted factors. -/

/-- Result of one fit() call: the fitted u and v, the final tol_ and the
final iter_. -/
structure FitRes where
  u : QMat
  v : QMat
  tol : ℚ
  iter : ℕ

/-- Mutable state of the svd object as touched by fit_restarts. -/
structure RState where
  u : QMat
  v : QMat
  tol_ : ℚ
  mse_ : ℚ
  iter_ : ℕ
  best_model_ : ℕ

/-- Accumulator u_best, v_best, tol_best, mse_best of fit_restarts. -/
structure BestAcc where
  u : QMat
  v : QMat
  tol : ℚ
  mse : ℚ

/-- Default rational matrix, used only as the junk value of List.getD. -/
def qdef : QMat := ⟨0, 0, fun _ _ => 0⟩

/-- Loop of fit_restarts, one step per remaining candidate; i is the index
of the next candidate.  Returns none when a shape check calls Rcpp::stop. -/
def restartsGo (Arows : ℕ) (runFit : QMat → FitRes) (mseFn : QMat → QMat → ℚ) :
    ℕ → List QMat → RState → BestAcc → Option (RState × BestAcc)
  | _, [], st, acc => some (st, acc)
  | i, c :: rest, st, acc =>
    let st1 : RState := { st with u := c, tol_ := 1, iter_ := 0 }
    if st1.u.rows ≠ st1.v.rows then none
    else if st1.u.cols ≠ Arows then none
    else
      let fr := runFit st1.u
      let m1 := mseFn fr.u fr.v
      let st2 : RState :=
        { st1 with u := fr.u, v := fr.v, tol_ := fr.tol, iter_ := fr.iter, mse_ := m1 }
      if i = 0 ∨ m1 < acc.mse then
        restartsGo Arows runFit mseFn (i + 1) rest
          { st2 with best_model_ := i } ⟨fr.u, fr.v, fr.tol, m1⟩
      else
        restartsGo Arows runFit mseFn (i + 1) rest st2 acc

/-- Embedding of svd::fit_restarts (svd.hpp lines 131-160): run the loop
from index 0 with the accumulator initialised from the current state and
mse_best = 0, then restore the best model unless the best model is the
last candidate (in which case the live state already is the best model). -/
def fit_restarts (Arows : ℕ) (runFit : QMat → FitRes) (mseFn : QMat → QMat → ℚ)
    (cands : List QMat) (st : RState) : Option RState :=
  match restartsGo Arows runFit mseFn 0 cands st ⟨st.u, st.v, st.tol_, 0⟩ with
  | none => none
  | some (st2, acc) =>
    if st2.best_model_ ≠ cands.length - 1 then
      some { st2 with u := acc.u, v := acc.v, tol_ := acc.tol, mse_ := acc.mse }
    else some st2

/-- Index of the first occurrence of the minimum of a list (the element x
such that x is less than or equal to everything after it and everything
before it is strictly greater than the minimum); 0 on the empty list.
This is the selection the claim describes: ties favour the earliest
index because the loop of fit_restarts compares with strict less-than. -/
def firstMinIdx : List ℚ → ℕ
  | [] => 0
  | x :: xs => if ∀ y ∈ xs, x ≤ y then 0 else firstMinIdx xs + 1

/-- Final mse of the restart started from candidate c. -/
def mseOf (runFit : QMat → FitRes) (mseFn : QMat → QMat → ℚ) (c : QMat) : ℚ :=
  mseFn (runFit c).u (runFit c).v

/-! ## The ALS fitters (svd::fit_rank_one, fit_rank_two, fit_rank_k, fit)

Real-valued layer: the fitters use Eigen norm(), that is square roots, so
they are embedded over the reals.  Matrices are total functions with the
dimensions carried in the parameter record; u has nrow rows, v has ncol
rows, and column k of each is the column being fitted. -/

noncomputable section

/-- Embedding of the preprocessor constant DIV_OFFSET (svd.hpp line 11). -/
def DIV_OFFSET : ℝ := 1e-15

/-- Dot product of the first n entries of two column vectors, modelling
Eigen dot() on length-n columns. -/
def dotc (n : ℕ) (f g : ℕ → ℝ) : ℝ :=
  ∑ i ∈ Finset.range n, f i * g i

/-- Euclidean norm of the first n entries of a column vector, modelling
Eigen norm() and svd::norm. -/
def normc (n : ℕ) (f : ℕ → ℝ) : ℝ :=
  Real.sqrt (dotc n f f)

/-- Denominator pattern (squared norm) + DIV_OFFSET, as used by every
least-squares division in the three fitters. -/
def sq_norm_off (n : ℕ) (f : ℕ → ℝ) : ℝ :=
  dotc n f f + DIV_OFFSET

/-- Denominator pattern (norm) + DIV_OFFSET, as used by every unit-scaling
division in the three fitters. -/
def norm_off (n : ℕ) (f : ℕ → ℝ) : ℝ :=
  normc n f + DIV_OFFSET

/-- Functional update of column c of a matrix. -/
def updCol (m : ℕ → ℕ → ℝ) (c : ℕ) (f : ℕ → ℝ) : ℕ → ℕ → ℝ :=
  fun i j => if j = c then f i else m i j

/-- Mean of the first n entries of a vector. -/
def meanv (n : ℕ) (x : ℕ → ℝ) : ℝ :=
  (∑ i ∈ Finset.range n, x i) / n

/-- Modelled from the spec: the external helper cor returns the Pearson
correlation coefficient of two vectors (spec section 4.1).  Division by
zero (for example on length-1 vectors, whose centered values vanish)
follows the Lean convention x / 0 = 0. -/
def cor (n : ℕ) (x y : ℕ → ℝ) : ℝ :=
  (∑ i ∈ Finset.range n, (x i - meanv n x) * (y i - meanv n y)) /
  (Real.sqrt (∑ i ∈ Finset.range n, (x i - meanv n x) ^ 2) *
   Real.sqrt (∑ i ∈ Finset.range n, (y i - meanv n y) ^ 2))

/-- Fitting parameters of an svd object: dimensions of A, maxit, tol and
the two L1 penalties L1[0] (u side) and L1[1] (v side). -/
structure Sp where
  nrow : ℕ
  ncol : ℕ
  maxit : ℕ
  tol : ℝ
  L1_0 : ℝ
  L1_1 : ℝ

/-- Mutable fitting state: the factor matrices, tol_, iter_, and the local
variable d of the fitter bodies (dlast), whose last-iteration value the
final unscaling multiplies by.  In the C++ source d is uninitialised when
the loop body never runs; the embedding carries whatever value the field
holds at entry in that case. -/
structure FState where
  u : ℕ → ℕ → ℝ
  v : ℕ → ℕ → ℝ
  tol_ : ℝ
  iter_ : ℕ
  dlast : ℝ

/-- One iteration of the loop of svd<Eigen::MatrixXd>::fit_rank_one
(svd.hpp lines 313-352), excluding the iter_ bookkeeping of the for
statement, which the loop combinator handles. -/
def fit_rank_one_body (p : Sp) (A : ℕ → ℕ → ℝ) (st : FState) : FState :=
  let ucol0 : ℕ → ℝ := fun r => st.u r 0
  let vraw : ℕ → ℝ := fun i =>
    let t := dotc p.nrow ucol0 (fun r => A r i)
    let t2 := if 0 < p.L1_1 then t - p.L1_1 else t
    t2 / sq_norm_off p.nrow ucol0
  let v1 : ℕ → ℝ := fun i => vraw i / norm_off p.ncol vraw
  let uraw : ℕ → ℝ := fun i =>
    let t := dotc p.ncol v1 (fun j => A i j)
    let t2 := if 0 < p.L1_0 then t - p.L1_0 else t
    t2 / sq_norm_off p.ncol v1
  let dnew := normc p.nrow uraw
  let u1 : ℕ → ℝ := fun i => uraw i / norm_off p.nrow uraw
  { u := updCol st.u 0 u1, v := updCol st.v 0 v1,
    tol_ := cor p.nrow u1 ucol0, iter_ := st.iter_, dlast := dnew }

/-- Coefficient a0 = u.col(1).dot(u.col(0)) + DIV_OFFSET of the V update
of fit_rank_two (svd.hpp line 367). -/
def rank_two_a0 (p : Sp) (st : FState) : ℝ :=
  dotc p.nrow (fun r => st.u r 1) (fun r => st.u r 0) + DIV_OFFSET

/-- Entry i of the V update of fit_rank_two before unit scaling (svd.hpp
lines 372-376).  NOTE the source subtracts u.col(0)(i) * a0, reading
column 0 of u at a V row index (out of bounds whenever
v.rows() > u.rows()). -/
def rank_two_vnew (p : Sp) (A : ℕ → ℕ → ℝ) (st : FState) : ℕ → ℝ := fun i =>
  let t := dotc p.nrow (fun r => st.u r 1) (fun r => A r i) - st.u i 0 * rank_two_a0 p st
  let t2 := if 0 < p.L1_1 then t - p.L1_1 else t
  t2 / sq_norm_off p.nrow (fun r => st.u r 1)

/-- Coefficient a0 = v.col(1).dot(v.col(0)) + DIV_OFFSET of the U update
of fit_rank_two (svd.hpp line 381); v1 is the updated, scaled column 1
of v. -/
def rank_two_b0 (p : Sp) (st : FState) (v1 : ℕ → ℝ) : ℝ :=
  dotc p.ncol v1 (fun r => st.v r 0) + DIV_OFFSET

/-- Entry i of the U update of fit_rank_two before unit scaling (svd.hpp
lines 386-390).  NOTE the source subtracts v.col(0)(i) * a0, reading
column 0 of v at a U row index. -/
def rank_two_unew (p : Sp) (A : ℕ → ℕ → ℝ) (st : FState) (v1 : ℕ → ℝ) : ℕ → ℝ := fun i =>
  let t := dotc p.ncol v1 (fun j => A i j) - st.v i 0 * rank_two_b0 p st v1
  let t2 := if 0 < p.L1_0 then t - p.L1_0 else t
  t2 / sq_norm_off p.ncol v1

/-- The V update entry claim C3 describes: the same raw update deflated by
(u.col(1).dot(u.col(0)) + DIV_OFFSET) * V(i, 0) instead of * U(i, 0). -/
def rank_two_vnew_claimed (p : Sp) (A : ℕ → ℕ → ℝ) (st : FState) : ℕ → ℝ := fun i =>
  let t := dotc p.nrow (fun r => st.u r 1) (fun r => A r i) - st.v i 0 * rank_two_a0 p st
  let t2 := if 0 < p.L1_1 then t - p.L1_1 else t
  t2 / sq_norm_off p.nrow (fun r => st.u r 1)

/-- The U update entry claim C3 describes: deflated by
(v.col(1).dot(v.col(0)) + DIV_OFFSET) * U(i, 0) instead of * V(i, 0). -/
def rank_two_unew_claimed (p : Sp) (A : ℕ → ℕ → ℝ) (st : FState) (v1 : ℕ → ℝ) : ℕ → ℝ := fun i =>
  let t := dotc p.ncol v1 (fun j => A i j) - st.u i 0 * rank_two_b0 p st v1
  let t2 := if 0 < p.L1_0 then t - p.L1_0 else t
  t2 / sq_norm_off p.ncol v1

/-- One iteration of the loop of svd<Eigen::MatrixXd>::fit_rank_two
(svd.hpp lines 364-403). -/
def fit_rank_two_body (p : Sp) (A : ℕ → ℕ → ℝ) (st : FState) : FState :=
  let u_it : ℕ → ℝ := fun i => st.u i 1
  let vraw := rank_two_vnew p A st
  let v1 : ℕ → ℝ := fun i => vraw i / norm_off p.ncol vraw
  let uraw := rank_two_unew p A st v1
  let dnew := normc p.nrow uraw
  let u1 : ℕ → ℝ := fun i => uraw i / norm_off p.nrow uraw
  { u := updCol st.u 1 u1, v := updCol st.v 1 v1,
    tol_ := cor p.nrow u1 u_it, iter_ := st.iter_, dlast := dnew }

/-- One iteration of the loop of svd<Eigen::MatrixXd>::fit_rank_k at rank
index k (svd.hpp lines 416-467).  The deflation loops run _k = k-1 down
to 0; they are written as sums over Finset.range k, which has the same
value since addition is commutative.  Line 435 of the source divides the
whole V column a second time by u.col(k).dot(u.col(k)) + DIV_OFFSET
(u.col(k) is unchanged since the first computation). -/
def fit_rank_k_body (k : ℕ) (p : Sp) (A : ℕ → ℕ → ℝ) (st : FState) : FState :=
  let ucolk : ℕ → ℝ := fun r => st.u r k
  let vraw : ℕ → ℝ := fun i =>
    let t := dotc p.nrow ucolk (fun r => A r i)
    let t2 := if 0 < p.L1_1 then t - p.L1_1 else t
    let t3 := t2 - ∑ j ∈ Finset.range k, dotc p.nrow ucolk (fun r => st.u r j) * st.v i j
    t3 / sq_norm_off p.nrow ucolk
  let vdiv : ℕ → ℝ := fun i => vraw i / sq_norm_off p.nrow ucolk
  let v1 : ℕ → ℝ := fun i => vdiv i / norm_off p.ncol vdiv
  let uraw : ℕ → ℝ := fun i =>
    let t := dotc p.ncol v1 (fun j => A i j)
    let t2 := if 0 < p.L1_0 then t - p.L1_0 else t
    let t3 := t2 - ∑ j ∈ Finset.range k, dotc p.ncol v1 (fun r => st.v r j) * st.u i j
    t3 / sq_norm_off p.ncol v1
  let dnew := normc p.nrow uraw
  let u1 : ℕ → ℝ := fun i => uraw i / norm_off p.nrow uraw
  { u := updCol st.u k u1, v := updCol st.v k v1,
    tol_ := cor p.nrow u1 ucolk, iter_ := st.iter_, dlast := dnew }

/-- The shared ALS loop shape, for (; iter_ < maxit; ++iter_) with break
when tol_ < tol after the body (svd.hpp lines 313, 350-351 and their
twins).  Returns the final state and the number of executed loop bodies;
a body cut short by break does not increment iter_, exactly as in the
source.  fuel is an upper bound on the remaining iterations; the fitters
call it with fuel = maxit - iter_, which makes fuel exhaustion coincide
with the loop condition failing. -/
def als_loop (body : FState → FState) (tol : ℝ) (maxit : ℕ) :
    ℕ → FState → FState × ℕ
  | 0, st => (st, 0)
  | fuel + 1, st =>
    if st.iter_ < maxit then
      let st2 := body st
      if st2.tol_ < tol then (st2, 1)
      else
        let r := als_loop body tol maxit fuel { st2 with iter_ := st2.iter_ + 1 }
        (r.1, r.2 + 1)
    else (st, 0)

/-- Embedding of svd<Eigen::MatrixXd>::fit_rank_one (svd.hpp lines
311-359): run the loop, then unscale u.col(0) by the last d. -/
def fit_rank_one (p : Sp) (A : ℕ → ℕ → ℝ) (st : FState) : FState × ℕ :=
  let r := als_loop (fit_rank_one_body p A) p.tol p.maxit (p.maxit - st.iter_) st
  ({ r.1 with u := updCol r.1.u 0 (fun i => r.1.u i 0 * r.1.dlast) }, r.2)

/-- Embedding of svd<Eigen::MatrixXd>::fit_rank_two (svd.hpp lines
362-410). -/
def fit_rank_two (p : Sp) (A : ℕ → ℕ → ℝ) (st : FState) : FState × ℕ :=
  let r := als_loop (fit_rank_two_body p A) p.tol p.maxit (p.maxit - st.iter_) st
  ({ r.1 with u := updCol r.1.u 1 (fun i => r.1.u i 1 * r.1.dlast) }, r.2)

/-- Embedding of svd<Eigen::MatrixXd>::fit_rank_k (svd.hpp lines
413-475). -/
def fit_rank_k (k : ℕ) (p : Sp) (A : ℕ → ℕ → ℝ) (st : FState) : FState × ℕ :=
  let r := als_loop (fit_rank_k_body k p A) p.tol p.maxit (p.maxit - st.iter_) st
  ({ r.1 with u := updCol r.1.u k (fun i => r.1.u i k * r.1.dlast) }, r.2)

/-- The per-rank dispatch loop of svd::fit (svd.hpp lines 115-119): rank
index 0 goes to fit_rank_one, 1 to fit_rank_two, higher to fit_rank_k.
Processes rank indices 0 .. kk-1 in increasing order and accumulates the
total number of executed loop bodies. -/
def fit_ranks (p : Sp) (A : ℕ → ℕ → ℝ) : ℕ → FState → FState × ℕ
  | 0, st => (st, 0)
  | kk + 1, st =>
    let r := fit_ranks p A kk st
    let r2 := if kk = 0 then fit_rank_one p A r.1
              else if kk = 1 then fit_rank_two p A r.1
              else fit_rank_k kk p A r.1
    (r2.1, r.2 + r2.2)

/-- Denominator of the final diagonal step of svd::fit (svd.hpp line 123):
d(i) = u.col(i).norm(), with NO DIV_OFFSET added. -/
def diag_d (p : Sp) (u : ℕ → ℕ → ℝ) (i : ℕ) : ℝ :=
  normc p.nrow (fun r => u r i)

/-- The final diagonal step of svd::fit (svd.hpp lines 122-125): for each
column i, d(i) = u.col(i).norm() and then u.col(i) /= d(i).  Returns the
d vector and the renormalised u. -/
def diag_step (p : Sp) (u : ℕ → ℕ → ℝ) : (ℕ → ℝ) × (ℕ → ℕ → ℝ) :=
  (diag_d p u, fun r i => u r i / diag_d p u i)

/-- Embedding of svd::fit (svd.hpp lines 112-126) for a model of rank k:
the per-rank fitters in increasing rank order, then the diagonal step.
Returns the final state, the d vector, and the total number of executed
ALS loop bodies. -/
def fit (p : Sp) (k : ℕ) (A : ℕ → ℕ → ℝ) (st : FState) : FState × (ℕ → ℝ) × ℕ :=
  let r := fit_ranks p A k st
  ({ r.1 with u := (diag_step p r.1.u).2 }, (diag_step p r.1.u).1, r.2)

end

/-! ## Concrete inputs for the fitter claims -/

noncomputable section

/-- Parameters for the 1 x 1 runs: maxit = 1, tol = 1e-4, no L1. -/
def pOne : Sp := ⟨1, 1, 1, 1e-4, 0, 0⟩

/-- The 1 x 1 input matrix A = [[1]]. -/
def Aone : ℕ → ℕ → ℝ := fun _ _ => 1

/-- The all-zero input matrix. -/
def Azero : ℕ → ℕ → ℝ := fun _ _ => 0

/-- Initial state with u = [[2]] (all columns), v = 0, at iteration 0. -/
def stTwo : FState := ⟨fun _ _ => 2, fun _ _ => 0, -1, 0, 0⟩

/-- Initial state for the rank-two claim: u = [[1, 1]], v = [[2, 0]]. -/
def stC3 : FState :=
  ⟨fun _ c => if c = 0 then 1 else if c = 1 then 1 else 0,
   fun _ c => if c = 0 then 2 else 0, -1, 0, 0⟩

/-- The all-ones vector, used as a concrete scaled V column. -/
def wOne : ℕ → ℝ := fun _ => 1

/-- Initial state whose first u column has squared norm 1 - DIV_OFFSET. -/
def stUnit : FState :=
  ⟨fun _ c => if c = 0 then Real.sqrt (1 - DIV_OFFSET) else 0,
   fun _ _ => 0, -1, 0, 0⟩

/-- A 1 x 1 u matrix with entry 3, for the diagonal-step witness. -/
def uThree : ℕ → ℕ → ℝ := fun r c => if r = 0 ∧ c = 0 then 3 else 0

/-- State for the iteration-budget claims: iter_ already at 5. -/
def stIterFive : FState := ⟨fun _ _ => 0, fun _ _ => 0, 0, 5, 0⟩

end

/-! ## Concrete inputs for the masking and restart claims -/

/-- Masking state in which only mask_zeros is active. -/
def mzOnly : MaskState := ⟨false, true, false, mmEmpty⟩

/-- Masking state in which a mask matrix is active. -/
def mmActive : MaskState := ⟨true, false, false, mmEx⟩

/-- Constant 1 x 1 rational matrix. -/
def qconst (x : ℚ) : QMat := ⟨1, 1, fun _ _ => x⟩

/-- Candidate list whose per-restart MSEs come out as [5, 3, 3, 4]. -/
def cands4 : List QMat := [qconst 5, qconst 3, qconst 3, qconst 4]

/-- Concrete runFit for the restart witnesses: echoes the candidate as u,
returns a fixed 1 x 1 v, tol 0 and 7 iterations. -/
def rfW : QMat → FitRes := fun m => ⟨m, ⟨1, 1, fun _ _ => 0⟩, 0, 7⟩

/-- Concrete mse for the restart witnesses: reads entry (0,0) of u. -/
def mfW : QMat → QMat → ℚ := fun u _ => u.ent 0 0

/-- Initial restart state with 1 x 1 factors. -/
def stW0 : RState := ⟨qconst 9, qconst 0, -1, 0, 0, 0⟩

/-- A 3 x 1 zero matrix (v of a 2 x 3 input A with k = 1). -/
def vW3 : QMat := ⟨3, 1, fun _ _ => 0⟩

/-- Restart state for the shape-check witness: v has 3 rows. -/
def stW10 : RState := ⟨qconst 9, vW3, -1, 0, 0, 0⟩

/-- Candidate of shape rows(A) x k = 2 x 1 for the shape-check witness. -/
def cW10 : QMat := ⟨2, 1, fun _ _ => 0⟩

/-- Concrete runFit preserving the 3-row v shape. -/
def rfW10 : QMat → FitRes := fun m => ⟨m, vW3, 0, 7⟩

/-! ## Theorems.

Claim theorems are stated in source order of the claims; helper lemmas
come first where needed. -/

/-- Claim C1 is a faithful reading of the spec but not of the code: on the
square full-rank input (the only shape class the dense mse can process
without out-of-bounds access), both backends return the squared error of
(U transpose times V) against A, not of (U times V transpose) as the
claim states, because the loop was adapted from the nmf implementation
where the factors are stored transposed.  At u = [[1,2],[3,4]],
v = [[5,6],[7,8]], A = 0 (2 x 2, k = 2, no masking) the code value is
4956/4 = 1239 on both backends while the claimed value is 5148/4 = 1287. -/
theorem mse_unmasked_diverges_from_claim :
    mse_dense uEx vEx AEx false false mmEmpty = 1239 ∧
    mse_sparse uEx vEx AsEx false false mmEmpty = 1239 ∧
    mse_claimed uEx vEx AEx = 1287 ∧
    mse_dense uEx vEx AEx false false mmEmpty ≠ mse_claimed uEx vEx AEx := by
  have h1 : mse_dense uEx vEx AEx false false mmEmpty = 1239 := by
    norm_num [mse_dense, uEx, vEx, AEx, mmEmpty, SMatQ.InnerIndices,
      Finset.sum_range_succ, Finset.sum_range_zero]
  have h2 : mse_sparse uEx vEx AsEx false false mmEmpty = 1239 := by
    norm_num [mse_sparse, uEx, vEx, AsEx, mmEmpty, SMatQ.InnerIndices, SMatQ.valueAt,
      Finset.sum_range_succ, Finset.sum_range_zero]
  have h3 : mse_claimed uEx vEx AEx = 1287 := by
    norm_num [mse_claimed, uEx, vEx, AEx, Finset.sum_range_succ, Finset.sum_range_zero]
  exact ⟨h1, h2, h3, by rw [h1, h3]; norm_num⟩

/-- Claim C8: the failure behaviour is as claimed (error exactly when no
mask matrix is set), but the value over the masked entries uses the same
transposed reconstruction as mse: at the single masked entry (0, 1) with
u = [[1,2],[3,4]], v = [[5,6],[7,8]], A = 0, both backends return
(dot of u column 0 with v column 1) squared = 900 while the claim's
reconstruction gives 529. -/
theorem mse_masked_diverges_from_claim :
    (mse_masked_dense uEx vEx AEx false mmEx).isOk = false ∧
    (mse_masked_sparse uEx vEx AsEx false mmEx).isOk = false ∧
    mse_masked_dense uEx vEx AEx true mmEx = .ok 900 ∧
    mse_masked_sparse uEx vEx AsEx true mmEx = .ok 900 ∧
    mse_masked_claimed uEx vEx AEx mmEx = 529 ∧
    mse_masked_dense uEx vEx AEx true mmEx ≠ .ok (mse_masked_claimed uEx vEx AEx mmEx) := by
  have h3 : mse_masked_dense uEx vEx AEx true mmEx = .ok 900 := by
    norm_num [mse_masked_dense, uEx, vEx, AEx, mmEx, SMatQ.InnerIndices, SMatQ.nnz,
      Finset.sum_range_succ, Finset.sum_range_zero]
  have h4 : mse_masked_sparse uEx vEx AsEx true mmEx = .ok 900 := by
    norm_num [mse_masked_sparse, uEx, vEx, AsEx, mmEx, SMatQ.InnerIndices, SMatQ.nnz,
      SMatQ.emptyInnerIndices, List.range_succ,
      Finset.sum_range_succ, Finset.sum_range_zero]
  have h5 : mse_masked_claimed uEx vEx AEx mmEx = 529 := by
    norm_num [mse_masked_claimed, uEx, vEx, AEx, mmEx, SMatQ.InnerIndices, SMatQ.nnz,
      Finset.sum_range_succ, Finset.sum_range_zero]
  refine ⟨by norm_num [mse_masked_dense]; rfl, by norm_num [mse_masked_sparse]; rfl,
    h3, h4, h5, ?_⟩
  rw [h3, h5]
  intro h
  have := Except.ok.inj h
  norm_num at this

/-- Claim C7 (amended): a call of maskZeros or maskMatrix fails when a mask
matrix is active, and a call of maskMatrix fails when either mode is
active (including itself); the one exception to the claim is that a
repeated maskZeros call with only mask_zeros active succeeds again,
returning the state unchanged, because maskZeros only checks the mask
matrix flag.  Failing calls return no new state, so they leave the
masking state unchanged, as the claim requires. -/
theorem mask_setters_exclusive :
    (∀ (st : MaskState) (f : SMatQ → Bool) (r c : ℕ) (m : SMatQ),
      st.mask = true →
      (maskZeros st).isOk = false ∧ (maskMatrix f r c m st).isOk = false) ∧
    (∀ (st : MaskState) (f : SMatQ → Bool) (r c : ℕ) (m : SMatQ),
      st.mask_zeros = true → (maskMatrix f r c m st).isOk = false) ∧
    (∀ st : MaskState, st.mask = false → st.mask_zeros = true →
      maskZeros st = .ok st) := by
  refine ⟨?_, ?_, ?_⟩
  · intro st f r c m h
    constructor
    · simp [maskZeros, h, Except.isOk, Except.toBool]
    · simp [maskMatrix, h, Except.isOk, Except.toBool]
  · intro st f r c m h
    by_cases hm : st.mask
    · simp [maskMatrix, hm, Except.isOk, Except.toBool]
    · by_cases hd : m.rows ≠ r ∨ m.cols ≠ c
      · simp only [maskMatrix, hm, if_false, if_neg, hd, if_true]
        simp [Except.isOk, Except.toBool, hd]
      · simp [maskMatrix, hm, hd, h, Except.isOk, Except.toBool]
  · intro st h1 h2
    cases st with
    | mk mk mz sy mm =>
      simp only at h1 h2
      subst h1; subst h2
      simp [maskZeros]

/-- Witness for the amended claim C7, at concrete masking states. -/
theorem mask_setters_exclusive_witness :
    ((maskZeros mmActive).isOk = false ∧
      (maskMatrix (fun _ => true) 2 2 mmEx mmActive).isOk = false) ∧
    (maskMatrix (fun _ => true) 2 2 mmEx mzOnly).isOk = false ∧
    maskZeros mzOnly = .ok mzOnly :=
  ⟨mask_setters_exclusive.1 mmActive (fun _ => true) 2 2 mmEx rfl,
   mask_setters_exclusive.2.1 mzOnly (fun _ => true) 2 2 mmEx rfl,
   mask_setters_exclusive.2.2 mzOnly rfl rfl⟩

/-- Counterexample to claim C7 as stated: with mask_zeros already active,
a second maskZeros call does not fail; it succeeds and returns the same
state, because maskZeros only checks the mask matrix flag (svd.hpp line
73 tests mask, not mask_zeros). -/
theorem maskZeros_repeat_succeeds : maskZeros mzOnly = .ok mzOnly := rfl

/-- Helper: the last element of a cons cell via getD. -/
theorem getD_last_cons (c : QMat) (rest : List QMat) (h : rest ≠ []) :
    (c :: rest).getD ((c :: rest).length - 1) qdef = rest.getD (rest.length - 1) qdef := by
  cases rest with
  | nil => exact absurd rfl h
  | cons b bs => simp [List.getD_cons_succ]

/-- Loop invariant of the fit_restarts loop, from the second candidate on:
the accumulator ends up holding the results of the first strict minimum
of the mse values seen so far, best_model_ ends up at its global index,
and the live state fields hold the last processed restart. -/
theorem restartsGo_spec (Arows : ℕ) (rf : QMat → FitRes) (mf : QMat → QMat → ℚ)
    (V0 : ℕ) (hrf : ∀ m, (rf m).v.rows = V0) :
    ∀ (rest : List QMat) (i : ℕ) (st : RState) (acc : BestAcc),
      st.v.rows = V0 →
      (∀ c ∈ rest, c.rows = V0 ∧ c.cols = Arows) →
      ∃ st2 acc2,
        restartsGo Arows rf mf (i + 1) rest st acc = some (st2, acc2) ∧
        (if ∀ y ∈ rest.map (mseOf rf mf), acc.mse ≤ y
         then acc2 = acc ∧ st2.best_model_ = st.best_model_
         else
           acc2 = ⟨(rf (rest.getD (firstMinIdx (rest.map (mseOf rf mf))) qdef)).u,
                   (rf (rest.getD (firstMinIdx (rest.map (mseOf rf mf))) qdef)).v,
                   (rf (rest.getD (firstMinIdx (rest.map (mseOf rf mf))) qdef)).tol,
                   mseOf rf mf (rest.getD (firstMinIdx (rest.map (mseOf rf mf))) qdef)⟩ ∧
           st2.best_model_ = i + 1 + firstMinIdx (rest.map (mseOf rf mf))) ∧
        (rest = [] → st2 = st) ∧
        (rest ≠ [] →
          st2.u = (rf (rest.getD (rest.length - 1) qdef)).u ∧
          st2.v = (rf (rest.getD (rest.length - 1) qdef)).v ∧
          st2.tol_ = (rf (rest.getD (rest.length - 1) qdef)).tol ∧
          st2.mse_ = mseOf rf mf (rest.getD (rest.length - 1) qdef)) := by
  intro rest
  induction rest with
  | nil =>
    intro i st acc hv _
    refine ⟨st, acc, rfl, ?_, fun _ => rfl, fun h => absurd rfl h⟩
    simp
  | cons c rest ih =>
    intro i st acc hv hsh
    obtain ⟨hcr, hcc⟩ := hsh c (List.mem_cons_self c rest)
    have hsh2 : ∀ x ∈ rest, x.rows = V0 ∧ x.cols = Arows :=
      fun x hx => hsh x (List.mem_cons_of_mem c hx)
    have hrow : ¬ c.rows ≠ st.v.rows := by simp [hcr, hv]
    have hcol : ¬ c.cols ≠ Arows := by simp [hcc]
    by_cases hlt : mseOf rf mf c < acc.mse
    · -- strict improvement: the accumulator takes restart c
      have hcond : (i + 1 = 0 ∨ mf (rf c).u (rf c).v < acc.mse) := Or.inr hlt
      obtain ⟨st2, acc2, heq, hsel, hnil, hlast⟩ :=
        ih (i + 1)
          { u := (rf c).u, v := (rf c).v, tol_ := (rf c).tol, mse_ := mseOf rf mf c,
            iter_ := (rf c).iter, best_model_ := i + 1 }
          ⟨(rf c).u, (rf c).v, (rf c).tol, mseOf rf mf c⟩ (hrf c) hsh2
      refine ⟨st2, acc2, ?_, ?_, fun h => absurd h (List.cons_ne_nil c rest), ?_⟩
      · simp only [restartsGo]
        rw [if_neg hrow, if_neg hcol, if_pos hcond]
        exact heq
      · -- selection bookkeeping
        have hnall : ¬ ∀ y ∈ (c :: rest).map (mseOf rf mf), acc.mse ≤ y := by
          intro hall
          exact absurd (hall (mseOf rf mf c) (by simp)) (not_le.mpr hlt)
        rw [if_neg hnall]
        by_cases hall2 : ∀ y ∈ rest.map (mseOf rf mf), mseOf rf mf c ≤ y
        · rw [if_pos hall2] at hsel
          have hB : firstMinIdx ((c :: rest).map (mseOf rf mf)) = 0 := by
            simp only [List.map_cons, firstMinIdx, if_pos hall2]
          rw [hB]
          refine ⟨?_, ?_⟩
          · rw [hsel.1]
            simp
          · rw [hsel.2]
        · rw [if_neg hall2] at hsel
          have hB : firstMinIdx ((c :: rest).map (mseOf rf mf)) =
              firstMinIdx (rest.map (mseOf rf mf)) + 1 := by
            simp only [List.map_cons, firstMinIdx, if_neg hall2]
          rw [hB]
          refine ⟨?_, ?_⟩
          · rw [hsel.1]
            simp [List.getD_cons_succ]
          · rw [hsel.2]
            omega
      · intro _
        by_cases hre : rest = []
        · subst hre
          have h5 := hnil rfl
          subst h5
          simp [mseOf]
        · have h4 := hlast hre
          rw [getD_last_cons c rest hre]
          exact h4
    · -- no strict improvement: accumulator unchanged
      have hcond : ¬ (i + 1 = 0 ∨ mf (rf c).u (rf c).v < acc.mse) := by
        rintro (h | h)
        · exact absurd h (Nat.succ_ne_zero i)
        · exact hlt h
      obtain ⟨st2, acc2, heq, hsel, hnil, hlast⟩ :=
        ih (i + 1)
          { u := (rf c).u, v := (rf c).v, tol_ := (rf c).tol, mse_ := mseOf rf mf c,
            iter_ := (rf c).iter, best_model_ := st.best_model_ }
          acc (hrf c) hsh2
      refine ⟨st2, acc2, ?_, ?_, fun h => absurd h (List.cons_ne_nil c rest), ?_⟩
      · simp only [restartsGo]
        rw [if_neg hrow, if_neg hcol, if_neg hcond]
        exact heq
      · have hle : acc.mse ≤ mseOf rf mf c := not_lt.mp hlt
        by_cases hall2 : ∀ y ∈ rest.map (mseOf rf mf), acc.mse ≤ y
        · have hall : ∀ y ∈ (c :: rest).map (mseOf rf mf), acc.mse ≤ y := by
            intro y hy
            simp only [List.map_cons, List.mem_cons] at hy
            rcases hy with rfl | h
            · exact hle
            · exact hall2 y h
          rw [if_pos hall]
          rw [if_pos hall2] at hsel
          exact ⟨hsel.1, by rw [hsel.2]⟩
        · have hnall : ¬ ∀ y ∈ (c :: rest).map (mseOf rf mf), acc.mse ≤ y := by
            intro hall
            apply hall2
            intro y hy
            apply hall y
            simp only [List.map_cons, List.mem_cons]
            exact Or.inr hy
          rw [if_neg hnall]
          rw [if_neg hall2] at hsel
          have hnallc : ¬ ∀ y ∈ rest.map (mseOf rf mf), mseOf rf mf c ≤ y := by
            intro hallc
            apply hall2
            intro y hy
            exact le_trans hle (hallc y hy)
          have hB : firstMinIdx ((c :: rest).map (mseOf rf mf)) =
              firstMinIdx (rest.map (mseOf rf mf)) + 1 := by
            simp only [List.map_cons, firstMinIdx, if_neg hnallc]
          rw [hB]
          refine ⟨?_, ?_⟩
          · rw [hsel.1]
            simp [List.getD_cons_succ]
          · rw [hsel.2]
            omega
      · intro _
        by_cases hre : rest = []
        · subst hre
          have h5 := hnil rfl
          subst h5
          simp [mseOf]
        · have h4 := hlast hre
          rw [getD_last_cons c rest hre]
          exact h4

/-- Claim C6: for every non-empty candidate list that passes the shape
checks (and any fit and mse behaviour, entering as the parameters rf and
mf, with rf preserving the row count of v as the real fit does),
fit_restarts succeeds, best_model_ is the index of the FIRST strict
minimum of the per-restart MSEs (ties go to the earlier index because
the loop compares with strict less-than), and the stored u, v, tol_ and
mse_ are those of that best restart.  The resets iter_ = 0 and tol_ = 1
before each fit call are part of the embedding of the loop body
(definition restartsGo, mirroring svd.hpp lines 138-140). -/
theorem fit_restarts_selects_first_strict_min
    (Arows : ℕ) (rf : QMat → FitRes) (mf : QMat → QMat → ℚ)
    (cands : List QMat) (st : RState)
    (hne : cands ≠ [])
    (hsh : ∀ c ∈ cands, c.rows = st.v.rows ∧ c.cols = Arows)
    (hrf : ∀ m, (rf m).v.rows = st.v.rows) :
    ∃ stF, fit_restarts Arows rf mf cands st = some stF ∧
      stF.best_model_ = firstMinIdx (cands.map (mseOf rf mf)) ∧
      stF.u = (rf (cands.getD (firstMinIdx (cands.map (mseOf rf mf))) qdef)).u ∧
      stF.v = (rf (cands.getD (firstMinIdx (cands.map (mseOf rf mf))) qdef)).v ∧
      stF.tol_ = (rf (cands.getD (firstMinIdx (cands.map (mseOf rf mf))) qdef)).tol ∧
      stF.mse_ = mseOf rf mf (cands.getD (firstMinIdx (cands.map (mseOf rf mf))) qdef) := by
  cases cands with
  | nil => exact absurd rfl hne
  | cons c0 rest =>
    obtain ⟨hcr, hcc⟩ := hsh c0 (List.mem_cons_self c0 rest)
    have hsh2 : ∀ x ∈ rest, x.rows = st.v.rows ∧ x.cols = Arows :=
      fun x hx => hsh x (List.mem_cons_of_mem c0 hx)
    have hrow : ¬ c0.rows ≠ st.v.rows := by simp [hcr]
    have hcol : ¬ c0.cols ≠ Arows := by simp [hcc]
    have hstep : restartsGo Arows rf mf 0 (c0 :: rest) st ⟨st.u, st.v, st.tol_, 0⟩ =
        restartsGo Arows rf mf 1 rest
          { u := (rf c0).u, v := (rf c0).v, tol_ := (rf c0).tol, mse_ := mseOf rf mf c0,
            iter_ := (rf c0).iter, best_model_ := 0 }
          ⟨(rf c0).u, (rf c0).v, (rf c0).tol, mseOf rf mf c0⟩ := by
      simp only [restartsGo]
      rw [if_neg hrow, if_neg hcol, if_pos (Or.inl trivial)]
      rfl
    obtain ⟨st2, acc2, heq, hsel, hnil, hlast⟩ :=
      restartsGo_spec Arows rf mf st.v.rows hrf rest 0
        { u := (rf c0).u, v := (rf c0).v, tol_ := (rf c0).tol, mse_ := mseOf rf mf c0,
          iter_ := (rf c0).iter, best_model_ := 0 }
        ⟨(rf c0).u, (rf c0).v, (rf c0).tol, mseOf rf mf c0⟩ (hrf c0) hsh2
    have heq2 : restartsGo Arows rf mf 1 rest
        { u := (rf c0).u, v := (rf c0).v, tol_ := (rf c0).tol, mse_ := mseOf rf mf c0,
          iter_ := (rf c0).iter, best_model_ := 0 }
        ⟨(rf c0).u, (rf c0).v, (rf c0).tol, mseOf rf mf c0⟩ = some (st2, acc2) := heq
    have hfr : fit_restarts Arows rf mf (c0 :: rest) st =
        (if st2.best_model_ ≠ (c0 :: rest).length - 1 then
          some { st2 with u := acc2.u, v := acc2.v, tol_ := acc2.tol, mse_ := acc2.mse }
        else some st2) := by
      simp only [fit_restarts]
      rw [hstep, heq2]
    by_cases hall2 : ∀ y ∈ rest.map (mseOf rf mf), mseOf rf mf c0 ≤ y
    · have hsel2 := hsel
      rw [if_pos hall2] at hsel2
      have hB : firstMinIdx ((c0 :: rest).map (mseOf rf mf)) = 0 := by
        simp only [List.map_cons, firstMinIdx, if_pos hall2]
      by_cases hre : rest = []
      · subst hre
        have h5 := hnil rfl
        refine ⟨st2, ?_, ?_⟩
        · rw [hfr]
          have h6 : ¬ st2.best_model_ ≠ ([c0].length - 1) := by
            rw [h5]
            simp
          rw [if_neg h6]
        · subst h5
          rw [hB]
          refine ⟨by rw [hsel2.2], by simp, by simp, by simp, by simp [mseOf]⟩
      · have hlen : (c0 :: rest).length - 1 = rest.length := by simp
        have hbne : st2.best_model_ ≠ (c0 :: rest).length - 1 := by
          rw [hlen, hsel2.2]
          simp only []
          have := List.length_pos.mpr hre
          omega
        refine ⟨_, by rw [hfr, if_pos hbne], ?_⟩
        rw [hB, hsel2.1]
        refine ⟨by rw [hsel2.2], by simp, by simp, by simp, by simp [mseOf]⟩
    · have hsel2 := hsel
      rw [if_neg hall2] at hsel2
      have hre : rest ≠ [] := by
        intro h
        subst h
        exact hall2 (by simp)
      have hB : firstMinIdx ((c0 :: rest).map (mseOf rf mf)) =
          firstMinIdx (rest.map (mseOf rf mf)) + 1 := by
        simp only [List.map_cons, firstMinIdx, if_neg hall2]
      have hgd : (c0 :: rest).getD (firstMinIdx (rest.map (mseOf rf mf)) + 1) qdef =
          rest.getD (firstMinIdx (rest.map (mseOf rf mf))) qdef := by
        simp [List.getD_cons_succ]
      have hlen : (c0 :: rest).length - 1 = rest.length := by simp
      by_cases hb : st2.best_model_ = (c0 :: rest).length - 1
      · have h4 := hlast hre
        have hj : firstMinIdx (rest.map (mseOf rf mf)) = rest.length - 1 := by
          have := hsel2.2
          rw [hb, hlen] at this
          have hpos := List.length_pos.mpr hre
          omega
        refine ⟨st2, by rw [hfr, if_neg (by simp [hb])], ?_, ?_, ?_, ?_, ?_⟩
        · rw [hB, hsel2.2]
          omega
        · rw [hB, hgd, hj]
          exact h4.1
        · rw [hB, hgd, hj]
          exact h4.2.1
        · rw [hB, hgd, hj]
          exact h4.2.2.1
        · rw [hB, hgd, hj]
          exact h4.2.2.2
      · refine ⟨_, by rw [hfr, if_pos hb], ?_, ?_, ?_, ?_, ?_⟩
        · rw [hB]
          dsimp only
          rw [hsel2.2]
          omega
        · rw [hB, hgd]
          dsimp only
          rw [hsel2.1]
        · rw [hB, hgd]
          dsimp only
          rw [hsel2.1]
        · rw [hB, hgd]
          dsimp only
          rw [hsel2.1]
        · rw [hB, hgd]
          dsimp only
          rw [hsel2.1]

/-- Witness for claim C6 at the MSE profile [5, 3, 3, 4] demanded by the
claim: the selected index is 1 (the first strict minimum), not 2. -/
theorem fit_restarts_selects_first_strict_min_witness :
    ∃ stF, fit_restarts 1 rfW mfW cands4 stW0 = some stF ∧ stF.best_model_ = 1 := by
  have hsh : ∀ c ∈ cands4, c.rows = stW0.v.rows ∧ c.cols = 1 := by
    intro c hc
    simp only [cands4, List.mem_cons, List.not_mem_nil, or_false] at hc
    rcases hc with rfl | rfl | rfl | rfl <;> exact ⟨rfl, rfl⟩
  obtain ⟨stF, h1, h2, _⟩ :=
    fit_restarts_selects_first_strict_min 1 rfW mfW cands4 stW0
      (by simp [cands4]) hsh (fun m => rfl)
  refine ⟨stF, h1, ?_⟩
  rw [h2]
  norm_num [cands4, mseOf, rfW, mfW, qconst, firstMinIdx, List.forall_mem_cons]

/-- Helper: the fit_restarts loop returns a state exactly when every
candidate passes both shape checks (u.rows == v.rows and
u.cols == A.rows). -/
theorem restartsGo_isSome (Arows : ℕ) (rf : QMat → FitRes) (mf : QMat → QMat → ℚ)
    (V0 : ℕ) (hrf : ∀ m, (rf m).v.rows = V0) :
    ∀ (cs : List QMat) (i : ℕ) (st : RState) (acc : BestAcc), st.v.rows = V0 →
      ((restartsGo Arows rf mf i cs st acc).isSome = true ↔
        ∀ c ∈ cs, c.rows = V0 ∧ c.cols = Arows) := by
  intro cs
  induction cs with
  | nil =>
    intro i st acc hv
    simp [restartsGo]
  | cons c rest ih =>
    intro i st acc hv
    simp only [restartsGo]
    by_cases h1 : c.rows ≠ st.v.rows
    · rw [if_pos h1]
      simp only [Option.isSome_none, Bool.false_eq_true, false_iff]
      intro hall
      exact h1 (by rw [(hall c (List.mem_cons_self c rest)).1, hv])
    · rw [if_neg h1]
      by_cases h2 : c.cols ≠ Arows
      · rw [if_pos h2]
        simp only [Option.isSome_none, Bool.false_eq_true, false_iff]
        intro hall
        exact h2 (hall c (List.mem_cons_self c rest)).2
      · rw [if_neg h2]
        push_neg at h1 h2
        by_cases h3 : i = 0 ∨ mf (rf c).u (rf c).v < acc.mse
        · rw [if_pos h3]
          constructor
          · intro h
            have hall := (ih (i + 1) _ _ (hrf c)).mp h
            intro x hx
            rcases List.mem_cons.mp hx with rfl | hx2
            · exact ⟨h1.trans hv, h2⟩
            · exact hall x hx2
          · intro hall
            apply (ih (i + 1) _ _ (hrf c)).mpr
            intro x hx
            exact hall x (List.mem_cons_of_mem c hx)
        · rw [if_neg h3]
          constructor
          · intro h
            have hall := (ih (i + 1) _ _ (hrf c)).mp h
            intro x hx
            rcases List.mem_cons.mp hx with rfl | hx2
            · exact ⟨h1.trans hv, h2⟩
            · exact hall x hx2
          · intro hall
            apply (ih (i + 1) _ _ (hrf c)).mpr
            intro x hx
            exact hall x (List.mem_cons_of_mem c hx)

/-- Claim C10: fit_restarts validates each candidate by requiring
u.rows() == v.rows() and u.cols() == A.rows(); hence for candidates of
the shape rows(A) x k that the constructors accept, it succeeds exactly
when rows(A) = cols(A) and k = rows(A), and raises an error otherwise. -/
theorem fit_restarts_shape_check
    (Arows Acols k : ℕ) (rf : QMat → FitRes) (mf : QMat → QMat → ℚ)
    (cands : List QMat) (st : RState)
    (hv : st.v.rows = Acols)
    (hne : cands ≠ [])
    (hsh : ∀ c ∈ cands, c.rows = Arows ∧ c.cols = k)
    (hrf : ∀ m, (rf m).v.rows = Acols) :
    ((fit_restarts Arows rf mf cands st).isSome = true ↔ (Arows = Acols ∧ k = Arows)) := by
  have hiff := restartsGo_isSome Arows rf mf Acols hrf cands 0 st ⟨st.u, st.v, st.tol_, 0⟩ hv
  have hsome : (fit_restarts Arows rf mf cands st).isSome =
      (restartsGo Arows rf mf 0 cands st ⟨st.u, st.v, st.tol_, 0⟩).isSome := by
    simp only [fit_restarts]
    rcases hgo : restartsGo Arows rf mf 0 cands st ⟨st.u, st.v, st.tol_, 0⟩ with _ | ⟨st2, acc2⟩
    · rfl
    · dsimp only
      by_cases hb : st2.best_model_ ≠ cands.length - 1
      · rw [if_pos hb]
        rfl
      · rw [if_neg hb]
        rfl
  rw [hsome, hiff]
  constructor
  · intro hall
    obtain ⟨c0, hc0⟩ := List.exists_mem_of_ne_nil cands hne
    obtain ⟨hr, hc⟩ := hsh c0 hc0
    obtain ⟨hr2, hc2⟩ := hall c0 hc0
    constructor
    · rw [← hr]
      exact hr2
    · rw [← hc]
      exact hc2
  · rintro ⟨ha, hb⟩ x hx
    obtain ⟨hr, hc⟩ := hsh x hx
    exact ⟨by rw [hr, ha], by rw [hc, hb]⟩

/-- Witness for claim C10: a 2 x 1 candidate for a 2 x 3 input A fails
the checks (2 = 3 and 1 = 2 being false). -/
theorem fit_restarts_shape_check_witness :
    ((fit_restarts 2 rfW10 mfW [cW10] stW10).isSome = true ↔ ((2 : ℕ) = 3 ∧ (1 : ℕ) = 2)) := by
  refine fit_restarts_shape_check 2 3 1 rfW10 mfW [cW10] stW10 rfl (by simp) ?_ (fun m => rfl)
  intro c hc
  simp only [List.mem_singleton] at hc
  subst hc
  exact ⟨rfl, rfl⟩

/-- Helper: the numerical offset is strictly positive. -/
theorem DIV_OFFSET_pos : 0 < DIV_OFFSET := by norm_num [DIV_OFFSET]

/-- Helper: a dot product of a vector with itself is nonnegative. -/
theorem dotc_nonneg (n : ℕ) (f : ℕ → ℝ) : 0 ≤ dotc n f f :=
  Finset.sum_nonneg (fun i _ => mul_self_nonneg (f i))

/-- Helper: dot product over a single entry. -/
theorem dotc_one (f g : ℕ → ℝ) : dotc 1 f g = f 0 * g 0 := by
  simp [dotc]

/-- Helper: the Pearson correlation of two length-1 vectors is 0 (the
centered values vanish and 0 / 0 = 0), so on one-dimensional inputs every
fitter iteration sets tol_ = 0 and breaks at once. -/
theorem cor_one (x y : ℕ → ℝ) : cor 1 x y = 0 := by
  simp [cor, meanv]

/-- Helper: the norm of a column divided by a nonnegative scalar. -/
theorem normc_div_scalar (n : ℕ) (f : ℕ → ℝ) (c : ℝ) (hc : 0 ≤ c) :
    normc n (fun r => f r / c) = normc n f / c := by
  unfold normc dotc
  rw [show (∑ i ∈ Finset.range n, f i / c * (f i / c)) =
      (∑ i ∈ Finset.range n, f i * f i) / c ^ 2 by
    rw [Finset.sum_div]
    exact Finset.sum_congr rfl (fun i _ => by ring)]
  rw [Real.sqrt_div (Finset.sum_nonneg (fun i _ => mul_self_nonneg (f i))), Real.sqrt_sq hc]

/-- Claim C4 (amended): every division inside the three rank fitters uses
one of the two denominator patterns sq_norm_off (squared norm plus
DIV_OFFSET) or norm_off (norm plus DIV_OFFSET), and both are strictly
positive for every vector, so no fitter division has a zero denominator;
the final diagonal normalization of fit(), however, divides by
diag_d = u.col(i).norm() with NO offset (svd.hpp line 123), and that
denominator is exactly zero when the column is zero (counterexample). -/
theorem fitter_denominators_positive :
    ∀ (n : ℕ) (f : ℕ → ℝ), 0 < sq_norm_off n f ∧ 0 < norm_off n f := by
  intro n f
  constructor
  · have h1 := dotc_nonneg n f
    have h2 := DIV_OFFSET_pos
    unfold sq_norm_off
    linarith
  · have h1 : (0 : ℝ) ≤ normc n f := Real.sqrt_nonneg _
    have h2 := DIV_OFFSET_pos
    unfold norm_off
    linarith

/-- Claim C5 (amended): after the diagonal step of fit(), d(i) always
equals the norm that column i of u had just before the step, and the
column has unit norm afterwards provided that pre-normalization norm is
nonzero (a zero column is divided by zero and does not get unit norm). -/
theorem diag_step_norms (p : Sp) (u : ℕ → ℕ → ℝ) (i : ℕ) :
    (diag_step p u).1 i = normc p.nrow (fun r => u r i) ∧
    (normc p.nrow (fun r => u r i) ≠ 0 →
      normc p.nrow (fun r => (diag_step p u).2 r i) = 1) := by
  refine ⟨rfl, ?_⟩
  intro h
  show normc p.nrow (fun r => u r i / diag_d p u i) = 1
  rw [normc_div_scalar p.nrow (fun r => u r i) (diag_d p u i) (Real.sqrt_nonneg _)]
  exact div_self h

/-- Witness for the amended claim C5 at the 1 x 1 matrix u = [[3]]. -/
theorem diag_step_norms_witness :
    normc pOne.nrow (fun r => uThree r 0) ≠ 0 ∧
    (diag_step pOne uThree).1 0 = normc pOne.nrow (fun r => uThree r 0) ∧
    normc pOne.nrow (fun r => (diag_step pOne uThree).2 r 0) = 1 := by
  have h : normc pOne.nrow (fun r => uThree r 0) = 3 := by
    simp only [normc, dotc, pOne, Finset.sum_range_one, uThree]
    norm_num
    rw [show (9 : ℝ) = 3 ^ 2 by norm_num, Real.sqrt_sq (by norm_num)]
  have hne : normc pOne.nrow (fun r => uThree r 0) ≠ 0 := by
    rw [h]
    norm_num
  exact ⟨hne, (diag_step_norms pOne uThree 0).1, (diag_step_norms pOne uThree 0).2 hne⟩

/-- Claim C3: the rank-two fitter has the deflation multiplicands swapped
relative to the claim (and relative to fit_rank_k, which generalises it):
the V update subtracts (u1 dot u0 + eps) * U(i,0) where the claim says
* V(i,0), and the U update subtracts (v1 dot v0 + eps) * V(i,0) where the
claim says * U(i,0).  At nrow = ncol = 1, A = 0, u = [[1, 1]],
v = [[2, 0]]: the code V update gives -1 while the claimed update gives
-2; with scaled column w = [1], the code U update and the claimed U
update differ likewise. -/
theorem rank_two_deflation_swapped :
    rank_two_vnew pOne Azero stC3 0 = -1 ∧
    rank_two_vnew_claimed pOne Azero stC3 0 = -2 ∧
    rank_two_unew pOne Azero stC3 wOne 0 ≠ rank_two_unew_claimed pOne Azero stC3 wOne 0 := by
  refine ⟨?_, ?_, ?_⟩
  · simp only [rank_two_vnew, rank_two_a0, sq_norm_off, dotc, pOne, Azero, stC3,
      Finset.sum_range_one]
    norm_num [DIV_OFFSET]
  · simp only [rank_two_vnew_claimed, rank_two_a0, sq_norm_off, dotc, pOne, Azero, stC3,
      Finset.sum_range_one]
    norm_num [DIV_OFFSET]
  · simp only [rank_two_unew, rank_two_unew_claimed, rank_two_b0, sq_norm_off, dotc,
      pOne, Azero, stC3, wOne, Finset.sum_range_one]
    norm_num [DIV_OFFSET]

/-- Claim C2 (amended): one loop iteration of the general rank-k fitter at
k = 0 coincides with the rank-1 fitter iteration exactly when the squared
norm of u column 0 plus DIV_OFFSET equals 1, making the extra division of
V on svd.hpp line 435 the identity; otherwise that extra division
perturbs the unit-scaling denominator and the outputs differ (see the
counterexample), so the outputs are not bit-for-bit equal in general. -/
theorem fit_rank_k0_body_eq_rank_one_body (p : Sp) (A : ℕ → ℕ → ℝ) (st : FState)
    (h : sq_norm_off p.nrow (fun r => st.u r 0) = 1) :
    fit_rank_k_body 0 p A st = fit_rank_one_body p A st := by
  unfold fit_rank_k_body fit_rank_one_body
  simp only [Finset.sum_range_zero, sub_zero, h, div_one]

/-- Witness for the amended claim C2: a 1 x 1 state whose u column has
squared norm 1 - DIV_OFFSET. -/
theorem fit_rank_k0_body_eq_rank_one_body_witness :
    sq_norm_off pOne.nrow (fun r => stUnit.u r 0) = 1 ∧
    fit_rank_k_body 0 pOne Aone stUnit = fit_rank_one_body pOne Aone stUnit := by
  have h : sq_norm_off pOne.nrow (fun r => stUnit.u r 0) = 1 := by
    simp only [sq_norm_off, dotc, pOne, stUnit, Finset.sum_range_one, eq_self_iff_true, if_true]
    rw [Real.mul_self_sqrt (by norm_num [DIV_OFFSET])]
    ring
  exact ⟨h, fit_rank_k0_body_eq_rank_one_body pOne Aone stUnit h⟩

/-- Helper: when the first body execution brings tol_ below tol, the ALS
loop runs exactly one body and does not increment iter_. -/
theorem als_loop_break (body : FState → FState) (tol : ℝ) (maxit fuel : ℕ) (st : FState)
    (h1 : st.iter_ < maxit) (hf : fuel ≠ 0) (h2 : (body st).tol_ < tol) :
    als_loop body tol maxit fuel st = (body st, 1) := by
  obtain ⟨k, rfl⟩ := Nat.exists_eq_succ_of_ne_zero hf
  simp only [als_loop]
  rw [if_pos h1, if_pos h2]

/-- Helper: with one unit of fuel and budget left, exactly one body runs. -/
theorem als_loop_fuel_one_cnt (body : FState → FState) (tol : ℝ) (maxit : ℕ) (st : FState)
    (h1 : st.iter_ < maxit) : (als_loop body tol maxit 1 st).2 = 1 := by
  simp only [als_loop]
  rw [if_pos h1]
  by_cases h2 : (body st).tol_ < tol
  · rw [if_pos h2]
  · rw [if_neg h2]

/-- Helper: closed form of fit_rank_one when the first iteration already
meets the tolerance: one body execution, then the unscaling of u. -/
theorem fit_rank_one_eval (p : Sp) (A : ℕ → ℕ → ℝ) (st : FState)
    (h1 : st.iter_ < p.maxit) (h2 : (fit_rank_one_body p A st).tol_ < p.tol) :
    fit_rank_one p A st =
      ({ fit_rank_one_body p A st with
          u := updCol (fit_rank_one_body p A st).u 0
            (fun i => (fit_rank_one_body p A st).u i 0 * (fit_rank_one_body p A st).dlast) },
       1) := by
  unfold fit_rank_one
  rw [als_loop_break _ _ _ _ _ h1 (by omega) h2]

/-- Helper: closed form of fit_rank_k under the same circumstances. -/
theorem fit_rank_k_eval (k : ℕ) (p : Sp) (A : ℕ → ℕ → ℝ) (st : FState)
    (h1 : st.iter_ < p.maxit) (h2 : (fit_rank_k_body k p A st).tol_ < p.tol) :
    fit_rank_k k p A st =
      ({ fit_rank_k_body k p A st with
          u := updCol (fit_rank_k_body k p A st).u k
            (fun i => (fit_rank_k_body k p A st).u i k * (fit_rank_k_body k p A st).dlast) },
       1) := by
  unfold fit_rank_k
  rw [als_loop_break _ _ _ _ _ h1 (by omega) h2]

/-- Helper: on one-row inputs the rank-1 body always sets tol_ = 0. -/
theorem fit_rank_one_body_tol (p : Sp) (A : ℕ → ℕ → ℝ) (st : FState) (h : p.nrow = 1) :
    (fit_rank_one_body p A st).tol_ = 0 := by
  simp [fit_rank_one_body, h, cor_one]

/-- Helper: on one-row inputs the rank-k body always sets tol_ = 0. -/
theorem fit_rank_k_body_tol (k : ℕ) (p : Sp) (A : ℕ → ℕ → ℝ) (st : FState) (h : p.nrow = 1) :
    (fit_rank_k_body k p A st).tol_ = 0 := by
  simp [fit_rank_k_body, h, cor_one]

/-- Helper: on A = 0 the rank-1 body drives column 0 of u to zero. -/
theorem fit_rank_one_body_zeroA_u (i : ℕ) :
    (fit_rank_one_body pOne Azero stTwo).u i 0 = 0 := by
  simp [fit_rank_one_body, updCol, pOne, Azero, stTwo, dotc, Finset.sum_range_one]

/-- Helper: after fit_rank_one on A = 0, column 0 of u is zero. -/
theorem fit_zeroA_ucol (r : ℕ) : (fit_rank_one pOne Azero stTwo).1.u r 0 = 0 := by
  have h2 : (fit_rank_one_body pOne Azero stTwo).tol_ < pOne.tol := by
    rw [fit_rank_one_body_tol pOne Azero stTwo rfl]
    norm_num [pOne]
  rw [fit_rank_one_eval pOne Azero stTwo (by norm_num [stTwo, pOne]) h2]
  dsimp only
  simp [updCol, fit_rank_one_body_zeroA_u]

/-- Counterexample to claim C4 as stated: running fit() (rank 1, maxit 1)
on the 1 x 1 zero matrix produces a zero u column, and the final diagonal
step then divides u.col(0) by d(0) = 0: a division performed during
fitting whose denominator is exactly zero and carries no DIV_OFFSET. -/
theorem fit_zeroA_diag_denominator_zero : (fit pOne 1 Azero stTwo).2.1 0 = 0 := by
  rw [show (fit pOne 1 Azero stTwo).2.1 = diag_d pOne (fit_rank_one pOne Azero stTwo).1.u
      from rfl]
  simp only [diag_d, normc, dotc]
  rw [show pOne.nrow = 1 from rfl]
  simp [Finset.sum_range_one, fit_zeroA_ucol]

/-- Counterexample to claim C5 as stated: after the same fit() run on the
zero matrix, column 0 of u does not have unit norm (its norm is 0). -/
theorem fit_zeroA_unit_norm_fails :
    normc pOne.nrow (fun r => (fit pOne 1 Azero stTwo).1.u r 0) ≠ 1 := by
  rw [show (fit pOne 1 Azero stTwo).1.u =
      (diag_step pOne (fit_rank_one pOne Azero stTwo).1.u).2 from rfl]
  simp only [diag_step, diag_d, normc, dotc]
  rw [show pOne.nrow = 1 from rfl]
  simp [Finset.sum_range_one, fit_zeroA_ucol]

/-- Helper: the V output of fit_rank_one on the 1 x 1 input A = [[1]] with
initial u = [[2]] and maxit = 1. -/
theorem fit_rank_one_Aone_v00 :
    (fit_rank_one pOne Aone stTwo).1.v 0 0 =
      (2 / (4 + DIV_OFFSET)) / (2 / (4 + DIV_OFFSET) + DIV_OFFSET) := by
  have h2 : (fit_rank_one_body pOne Aone stTwo).tol_ < pOne.tol := by
    rw [fit_rank_one_body_tol pOne Aone stTwo rfl]
    norm_num [pOne]
  rw [fit_rank_one_eval pOne Aone stTwo (by norm_num [stTwo, pOne]) h2]
  show (fit_rank_one_body pOne Aone stTwo).v 0 0 = _
  simp only [fit_rank_one_body, updCol, norm_off, sq_norm_off, normc, dotc, pOne, Aone, stTwo,
    Finset.sum_range_one]
  norm_num
  rw [Real.sqrt_mul_self (by norm_num [DIV_OFFSET] : (0:ℝ) ≤ 2 / (4 + DIV_OFFSET))]

/-- Helper: the V output of fit_rank_k at k = 0 on the same input; the
extra division on svd.hpp line 435 shows up as the extra / (4 + eps). -/
theorem fit_rank_k0_Aone_v00 :
    (fit_rank_k 0 pOne Aone stTwo).1.v 0 0 =
      ((2 / (4 + DIV_OFFSET)) / (4 + DIV_OFFSET)) /
        ((2 / (4 + DIV_OFFSET)) / (4 + DIV_OFFSET) + DIV_OFFSET) := by
  have h2 : (fit_rank_k_body 0 pOne Aone stTwo).tol_ < pOne.tol := by
    rw [fit_rank_k_body_tol 0 pOne Aone stTwo rfl]
    norm_num [pOne]
  rw [fit_rank_k_eval 0 pOne Aone stTwo (by norm_num [stTwo, pOne]) h2]
  show (fit_rank_k_body 0 pOne Aone stTwo).v 0 0 = _
  simp only [fit_rank_k_body, updCol, norm_off, sq_norm_off, normc, dotc, pOne, Aone, stTwo,
    Finset.sum_range_one, Finset.sum_range_zero]
  norm_num
  rw [Real.sqrt_mul_self
    (by norm_num [DIV_OFFSET] : (0:ℝ) ≤ 2 / (4 + DIV_OFFSET) / (4 + DIV_OFFSET))]

/-- Counterexample to claim C2 as stated: on the same 1 x 1 input, with
the same initial u, the rank-k fitter at the k = 1 case and the rank-1
fitter return different V factor columns (they differ in terms of order
DIV_OFFSET, because of the extra division on svd.hpp line 435). -/
theorem fit_rank_k0_output_ne_rank_one :
    (fit_rank_k 0 pOne Aone stTwo).1.v 0 0 ≠ (fit_rank_one pOne Aone stTwo).1.v 0 0 := by
  rw [fit_rank_k0_Aone_v00, fit_rank_one_Aone_v00]
  norm_num [DIV_OFFSET]

/-- Claim C9 (amended): for any loop body that does not touch iter_ (as
all three fitter bodies do not), the shared ALS loop leaves the state
untouched and runs zero bodies once iter_ has reached maxit, never
decreases iter_ and never pushes it past maxit, and executes at most
(number of iter_ increments) + 1 bodies.  Hence iter_ carries over from
rank to rank unreset, totalling at most maxit increments across ranks;
but a fitter that exits through the tolerance break does not increment
iter_ for its final body, so the total number of executed bodies can
exceed maxit (see the counterexample). -/
theorem als_loop_budget (body : FState → FState)
    (hb : ∀ s, (body s).iter_ = s.iter_) (tol : ℝ) (maxit : ℕ) :
    ∀ (fuel : ℕ) (st : FState),
      (maxit ≤ st.iter_ → als_loop body tol maxit fuel st = (st, 0)) ∧
      (st.iter_ ≤ (als_loop body tol maxit fuel st).1.iter_ ∧
        (als_loop body tol maxit fuel st).1.iter_ ≤ max st.iter_ maxit) ∧
      (als_loop body tol maxit fuel st).2 ≤
        ((als_loop body tol maxit fuel st).1.iter_ - st.iter_) + 1 := by
  intro fuel
  induction fuel with
  | zero =>
    intro st
    refine ⟨?_, ⟨le_refl _, le_max_left _ _⟩, ?_⟩
    · intro _
      rfl
    · simp [als_loop]
  | succ n ih =>
    intro st
    by_cases h1 : st.iter_ < maxit
    · have hunf : als_loop body tol maxit (n + 1) st =
          (if (body st).tol_ < tol then ((body st), 1)
           else
             let r := als_loop body tol maxit n { body st with iter_ := (body st).iter_ + 1 }
             (r.1, r.2 + 1)) := by
        simp only [als_loop]
        rw [if_pos h1]
      by_cases h2 : (body st).tol_ < tol
      · rw [hunf, if_pos h2]
        refine ⟨fun h => absurd h (by omega), ⟨?_, ?_⟩, ?_⟩
        · dsimp only
          rw [hb]
        · dsimp only
          rw [hb]
          exact le_max_left _ _
        · dsimp only
          rw [hb]
          omega
      · have hunf1 : (als_loop body tol maxit (n + 1) st).1 =
            (als_loop body tol maxit n { body st with iter_ := (body st).iter_ + 1 }).1 := by
          simp only [als_loop]
          rw [if_pos h1, if_neg h2]
        have hunfc : (als_loop body tol maxit (n + 1) st).2 =
            (als_loop body tol maxit n { body st with iter_ := (body st).iter_ + 1 }).2 + 1 := by
          simp only [als_loop]
          rw [if_pos h1, if_neg h2]
        have hSit : ({ body st with iter_ := (body st).iter_ + 1 } : FState).iter_ =
            st.iter_ + 1 := by
          dsimp only
          rw [hb]
        obtain ⟨_, ⟨k1, k2⟩, k3⟩ := ih { body st with iter_ := (body st).iter_ + 1 }
        rw [hSit] at k1 k2 k3
        refine ⟨fun h => absurd h (by omega), ⟨?_, ?_⟩, ?_⟩
        · rw [hunf1]
          omega
        · rw [hunf1]
          omega
        · rw [hunfc, hunf1]
          omega
    · have hunf : als_loop body tol maxit (n + 1) st = (st, 0) := by
        simp only [als_loop]
        rw [if_neg h1]
      rw [hunf]
      refine ⟨fun _ => rfl, ⟨le_refl _, le_max_left _ _⟩, by omega⟩

/-- Witness for the amended claim C9: a loop entered with iter_ = 5 and
maxit = 3 runs zero bodies and returns the state unchanged. -/
theorem als_loop_budget_witness :
    als_loop (fun s => s) 0 3 2 stIterFive = (stIterFive, 0) :=
  (als_loop_budget (fun s => s) (fun _ => rfl) 0 3 2 stIterFive).1 (by norm_num [stIterFive])

/-- Counterexample to the budget part of claim C9 as stated: with
maxit = 1 on a 1 x 1 input, fit() over ranks 0 and 1 executes 2 loop
bodies in total - the rank-1 fitter breaks on tolerance without
incrementing iter_, so the rank-2 fitter still sees iter_ = 0 and runs a
full extra iteration.  2 > maxit = 1. -/
theorem fit_ranks_bodies_exceed_maxit :
    pOne.maxit = 1 ∧ (fit_ranks pOne Aone 2 stTwo).2 = 2 := by
  refine ⟨rfl, ?_⟩
  have h2 : (fit_rank_one_body pOne Aone stTwo).tol_ < pOne.tol := by
    rw [fit_rank_one_body_tol pOne Aone stTwo rfl]
    norm_num [pOne]
  have heval := fit_rank_one_eval pOne Aone stTwo (by norm_num [stTwo, pOne]) h2
  have hit : (fit_rank_one pOne Aone stTwo).1.iter_ = 0 := by
    rw [heval]
    rfl
  have hcnt1 : (fit_rank_one pOne Aone stTwo).2 = 1 := by
    rw [heval]
  have hcnt2 : (fit_rank_two pOne Aone (fit_rank_one pOne Aone stTwo).1).2 = 1 := by
    unfold fit_rank_two
    dsimp only
    rw [show pOne.maxit - (fit_rank_one pOne Aone stTwo).1.iter_ = 1 by rw [hit]; rfl]
    exact als_loop_fuel_one_cnt _ _ _ _ (by rw [hit]; norm_num [pOne])
  show (fit_ranks pOne Aone 2 stTwo).2 = 2
  have hranks : (fit_ranks pOne Aone 2 stTwo).2 =
      (0 + (fit_rank_one pOne Aone stTwo).2) +
        (fit_rank_two pOne Aone (fit_rank_one pOne Aone stTwo).1).2 := rfl
  rw [hranks, hcnt1, hcnt2]
